import Mathlib

/-!
# go-file: a verification development

This file embeds the data model and operations of the `go-file` library
(package `file`, with its `sandbox` and `memfs` implementation packages)
shallowly in Lean, and proves properties of the embedding.

Conventions of the embedding:
* Go `uint16` values are `Nat` below `2 ^ 16`; bit operations are `Nat`
  bitwise operations.
* Go strings are `String` (or `List Char` where character-level reasoning
  is needed).
* Fallible operations return `Except`.
-/

namespace GoFile

/-! ## Mode (from `file/file.go`)

`Mode` tracks the familiar posixy 0777 bitmask; the Go struct holds a
single `bits uint16` field. -/

structure Mode where
  bits : Nat
deriving DecidableEq, Repr

/-- `NewModeFromBits` from `file/file.go`: `return Mode{bits & 0777}`. -/
def NewModeFromBits (bits : Nat) : Mode :=
  ⟨bits &&& 0o777⟩

/-- `Mode.Raw` from `file/file.go`: `return m.bits`. -/
def Mode.Raw (m : Mode) : Nat :=
  m.bits

/-- The fixed table `const rwx = "rwxrwxrwx"` from `Mode.String`. -/
def rwxTable : List Char :=
  "rwxrwxrwx".data

/-- `Mode.String` from `file/file.go` (named `render` here because `String`
is the name of the result type): for each index `i` of the 9-character
table, emit the table character when bit `9-1-i` of `m.bits` is set and
`'-'` otherwise. -/
def Mode.render (m : Mode) : String :=
  ⟨(List.range 9).map fun i =>
    if m.bits &&& (1 <<< (9 - 1 - i)) ≠ 0 then rwxTable.getD i ' ' else '-'⟩

/-! ## Kind (from `file/file.go`)

`Kind` is a closed enum in Go, realised as seven zero-size struct types
`Kind_File` .. `Kind_CharDevice` implementing a sealed interface. -/

inductive Kind where
  | file
  | dir
  | symlink
  | fifo
  | socket
  | blockDevice
  | charDevice
deriving DecidableEq, Repr

/-- `Kind.String` per-variant methods from `file/file.go` (named `render`
here because `String` is the name of the result type). -/
def Kind.render : Kind → String
  | .file => "f"
  | .dir => "d"
  | .symlink => "l"
  | .fifo => "p"
  | .socket => "s"
  | .blockDevice => "b"
  | .charDevice => "c"

/-- `Kind.GoString` per-variant methods from `file/file.go`. -/
def Kind.goString : Kind → String
  | .file => "file.Kind_File"
  | .dir => "file.Kind_Dir"
  | .symlink => "file.Kind_Symlink"
  | .fifo => "file.Kind_Fifo"
  | .socket => "file.Kind_Socket"
  | .blockDevice => "file.Kind_Device"
  | .charDevice => "file.Kind_CharDevice"

/-! ## Metadata (from `file/file.go`)

`time.Time` values are modelled as integer ticks; the fields' meanings are
platform-independent by construction. -/

structure Metadata where
  Perms : Mode
  Uid : Nat
  Gid : Nat
  Size : Int
  Linkname : String
  Devmajor : Int
  Devminor : Int
  Ctime : Int
  Mtime : Int
  Atime : Int
deriving DecidableEq, Repr

/-! ## Errors

The `file` package's source carries its error conventions as comments:
every error has a `who` field rendered as `"%s reports:"`, and magic
platform error codes print as `"E_WHATEVER/123"` or `"UNKNOWN/123"`.
The error taxonomy itself (NotFound, KindMismatch, PermissionDenied,
Breakout, BackendError) is given by the spec.  Rendering is modelled over
`List Char` so character-level facts can be stated. -/

/-- Modelled from the spec: platform-specific magic error codes (no Go
error type is present in the repository, only the convention comments);
a code is either known, with a symbolic name, or unknown. -/
inductive ErrCode where
  | known (name : List Char) (num : Nat)
  | unknown (num : Nat)
deriving DecidableEq, Repr

/-- Modelled from the spec: the error taxonomy of §7 (the repository holds
only comment-level conventions, no error type). `breakout` carries the
path prefix at which the violation was detected. -/
inductive ErrDetail where
  | notFound (name : String)
  | kindMismatch (expected actual : String)
  | permissionDenied
  | breakout (pre : List String)
  | backend (code : ErrCode)
deriving DecidableEq, Repr

/-- Modelled from the spec: an error value; `who` is the reporting layer,
per the `file` package's error-convention comments. -/
structure Err where
  who : String
  detail : ErrDetail
deriving DecidableEq, Repr

/-- Modelled from the spec: renders a path as its components joined
with the separator. -/
def pathRender (p : List String) : List Char :=
  (String.intercalate "/" p).data

/-- Modelled from the spec: renders a magic platform error code as
`name/num` when known, `UNKNOWN/num` otherwise, per the convention
comments in the `file` package. -/
def renderCode : ErrCode → List Char
  | .known name num => name ++ '/' :: (Nat.repr num).data
  | .unknown num => "UNKNOWN".data ++ '/' :: (Nat.repr num).data

/-- Modelled from the spec: renders the detail part of an error message. -/
def renderDetail : ErrDetail → List Char
  | .notFound name => "not found: ".data ++ name.data
  | .kindMismatch expected actual =>
      "kind mismatch: expected ".data ++ expected.data ++ ", got ".data ++ actual.data
  | .permissionDenied => "permission denied".data
  | .breakout pre => "breakout at ".data ++ pathRender pre
  | .backend code => renderCode code

/-- Modelled from the spec: full error rendering; the `who` field ends up
in the output as `"%s reports:"`, per the `file` package's
error-convention comments. -/
def renderErr (e : Err) : List Char :=
  e.who.data ++ " reports: ".data ++ renderDetail e.detail

/-! ## Handle and specialization (from `file/file.go`)

`Handle` is an interface in Go; no implementation is in the repository.
The model gives a Handle a `Kind` and a `Metadata`.  A usable `Dir`
(resp. `File`) value carries a proof that its Kind matches. -/

/-- Modelled from the spec: a Handle is an open capability with a Kind
and Metadata (the repository declares `Handle` only as an interface). -/
structure Handle where
  kind : Kind
  md : Metadata
deriving DecidableEq, Repr

/-- Modelled from the spec: a usable Directory view; it can only be
built from a Handle whose Kind is `dir`. -/
structure Dir where
  handle : Handle
  kindOk : handle.kind = Kind.dir

/-- Modelled from the spec: a usable File view; it can only be built
from a Handle whose Kind is `file`. -/
structure File where
  handle : Handle
  kindOk : handle.kind = Kind.file

/-- Modelled from the spec: `Handle.Dir()` specialization (declared in
the repository only as an interface method that must fail loudly on a
Kind mismatch); fails with a descriptive kind-mismatch error when the
Kind is not `dir`. -/
def Handle.toDir (h : Handle) : Except Err Dir :=
  if hk : h.kind = Kind.dir then .ok ⟨h, hk⟩
  else .error ⟨"file", .kindMismatch (Kind.render .dir) h.kind.render⟩

/-- Modelled from the spec: `Handle.File()` specialization (declared in
the repository only as an interface method that must fail loudly on a
Kind mismatch); fails with a descriptive kind-mismatch error when the
Kind is not `file` (a regular file). -/
def Handle.toFile (h : Handle) : Except Err File :=
  if hk : h.kind = Kind.file then .ok ⟨h, hk⟩
  else .error ⟨"file", .kindMismatch (Kind.render .file) h.kind.render⟩

/-! ## Cabinet and OpenRoot

`Cabinet.OpenRoot() (Handle, error)` is declared in the repository only
as an interface. -/

/-- Modelled from the spec: a Cabinet entry point (the repository
declares `Cabinet` only as an interface).  `backendErr` is the
backend-reported failure, if any, of opening the root; `rootMd` the root
directory's metadata. -/
structure Cabinet where
  backendErr : Option Err
  rootMd : Metadata

/-- Modelled from the spec: `Cabinet.OpenRoot` returns a Directory
Handle or fails with the backend-reported error.  Totality of this
definition is the no-panic guarantee. -/
def Cabinet.OpenRoot (c : Cabinet) : Except Err Handle :=
  match c.backendErr with
  | some e => .error e
  | none => .ok ⟨Kind.dir, c.rootMd⟩

/-! ## ReadMetadata (pointer-passing model)

`Handle.ReadMetadata(*Metadata) *Metadata` is declared in the repository
only as an interface method with a documented contract.  Go pointers are
modelled by an explicit heap of Metadata cells: a pointer is `Option Nat`
(an index, or `none` for Go's nil). -/

/-- Modelled from the spec: the heap of Metadata cells backing the
pointer-passing model of `ReadMetadata`. -/
structure MetaHeap where
  cells : List Metadata
deriving DecidableEq, Repr

/-- Modelled from the spec: `Handle.ReadMetadata` (an interface method in
the repository): given a non-nil pointer, the pointed-to cell is
overwritten in place and the same pointer returned; given nil, a new cell
is allocated and a pointer to it returned. -/
def Handle.ReadMetadata (h : Handle) (arg : Option Nat) (heap : MetaHeap) :
    Option Nat × MetaHeap :=
  match arg with
  | some p => (some p, ⟨heap.cells.set p h.md⟩)
  | none => (some heap.cells.length, ⟨heap.cells ++ [h.md]⟩)

/-! ## Sandboxing decorator (the core algorithm)

The repository's `sandbox` package contains only its package
documentation: the checks it describes ("checks every path that's about
to be traversed to see if it contains any symlinks, and if the symlinks
would leave the cabinet root ... return an E_Breakout error") with the
resolution algorithm of spec §4.3.  Everything in this section is
therefore modelled from the spec.

The backing store is a tree of nodes; an entry is identified by its
absolute location (list of names from the host root).  The sandbox's
root is such a location; the delegate Cabinet it wraps is rooted there
too, but the delegate follows symlinks without any containment check, so
symlinks can lead it anywhere in the host tree. -/

/-- Modelled from the spec: a node of the backing filesystem tree (the
repository's backends, `memfs` and the host passthrough, exist only as
package documentation).  A symlink target is an absolute flag plus a
component list which may contain `".."`. -/
inductive Node where
  | file
  | dir (entries : List (String × Node))
  | symlink (absolute : Bool) (target : List String)

/-- Modelled from the spec: name lookup among a directory's entries. -/
def lookupEntry : List (String × Node) → String → Option Node
  | [], _ => none
  | (n, nd) :: rest, c => if n = c then some nd else lookupEntry rest c

/-- Modelled from the spec: physical lookup of the node at an absolute
location (no symlink is followed; locations produced by resolution only
descend through real directories). -/
def nodeAt : Node → List String → Option Node
  | nd, [] => some nd
  | .dir es, c :: rest =>
    match lookupEntry es c with
    | some child => nodeAt child rest
    | none => none
  | .file, _ :: _ => none
  | .symlink _ _, _ :: _ => none

/-- Modelled from the spec: handle events of one resolution attempt
(step 2a opens a component, step 2d closes intermediate handles). -/
inductive Ev where
  | openH (p : List String)
  | closeH (p : List String)
deriving DecidableEq, Repr

/-- Modelled from the spec: resolution errors. `breakout` carries the
path prefix at which the violation was detected; `loop` is symlink-chain
exhaustion. -/
inductive RErr where
  | notFound (p : List String)
  | notDir (p : List String)
  | breakout (pre : List String)
  | loop
deriving DecidableEq, Repr

/-- Modelled from the spec, §4.3 step 2: sandboxed component-by-component
resolution.  `cur` is the current directory's location (whose handle the
caller holds open), `rem` the remaining components, `ff` whether a
symlink at the final component is followed, `fuel` the step bound.
Returns the result together with the handle events of the attempt:
on success the returned location's handle is the one left open; on any
error every handle opened during the attempt (including the entry
handle for `cur`) has been closed.  A `".."` component at the root, an
absolute symlink target, and (by substitution and re-validation) any
chained hop that escapes, fail with `breakout`. -/
def sandboxStep (fs : Node) (root : List String) :
    Nat → List String → List String → Bool → Except RErr (List String) × List Ev
  | 0, cur, _, _ => (.error .loop, [Ev.closeH cur])
  | _ + 1, cur, [], _ => (.ok cur, [])
  | fuel + 1, cur, c :: rest, ff =>
    if c = ".." then
      if cur = root then
        (.error (.breakout (cur ++ [c])), [Ev.closeH cur])
      else
        let r := sandboxStep fs root fuel cur.dropLast rest ff
        (r.fst, Ev.openH cur.dropLast :: Ev.closeH cur :: r.snd)
    else
      match nodeAt fs (cur ++ [c]) with
      | none => (.error (.notFound (cur ++ [c])), [Ev.closeH cur])
      | some (.symlink abs target) =>
        if rest = [] ∧ ff = false then
          (.ok (cur ++ [c]), [Ev.openH (cur ++ [c]), Ev.closeH cur])
        else if abs then
          (.error (.breakout (cur ++ [c])),
            [Ev.openH (cur ++ [c]), Ev.closeH (cur ++ [c]), Ev.closeH cur])
        else
          let r := sandboxStep fs root fuel cur (target ++ rest) ff
          (r.fst, Ev.openH (cur ++ [c]) :: Ev.closeH (cur ++ [c]) :: r.snd)
      | some (.dir _) =>
        let r := sandboxStep fs root fuel (cur ++ [c]) rest ff
        (r.fst, Ev.openH (cur ++ [c]) :: Ev.closeH cur :: r.snd)
      | some .file =>
        match rest with
        | [] => (.ok (cur ++ [c]), [Ev.openH (cur ++ [c]), Ev.closeH cur])
        | _ :: _ =>
          (.error (.notDir (cur ++ [c])),
            [Ev.openH (cur ++ [c]), Ev.closeH (cur ++ [c]), Ev.closeH cur])

/-- Modelled from the spec: the un-sandboxed delegate's resolution of the
same paths (the delegate backend exists in the repository only as package
documentation).  Identical traversal, but with no containment check:
`".."` clamps at the host root and an absolute symlink target restarts
from the host root, as a posix-ish backend would. -/
def delegateStep (fs : Node) :
    Nat → List String → List String → Bool → Except RErr (List String)
  | 0, _, _, _ => .error .loop
  | _ + 1, cur, [], _ => .ok cur
  | fuel + 1, cur, c :: rest, ff =>
    if c = ".." then
      delegateStep fs fuel cur.dropLast rest ff
    else
      match nodeAt fs (cur ++ [c]) with
      | none => .error (.notFound (cur ++ [c]))
      | some (.symlink abs target) =>
        if rest = [] ∧ ff = false then .ok (cur ++ [c])
        else if abs then delegateStep fs fuel [] (target ++ rest) ff
        else delegateStep fs fuel cur (target ++ rest) ff
      | some (.dir _) => delegateStep fs fuel (cur ++ [c]) rest ff
      | some .file =>
        match rest with
        | [] => .ok (cur ++ [c])
        | _ :: _ => .error (.notDir (cur ++ [c]))

/-- Modelled from the spec: full sandboxed resolution of a path — open
the root handle (step 1: start at the fixed root, already known-safe)
and walk the components. -/
def sandboxResolve (fs : Node) (root : List String) (path : List String)
    (ff : Bool) (fuel : Nat) : Except RErr (List String) × List Ev :=
  let r := sandboxStep fs root fuel root path ff
  (r.fst, Ev.openH root :: r.snd)

/-- Modelled from the spec: the delegate Cabinet's resolution of the same
path from the same root, with no containment checks. -/
def delegateResolve (fs : Node) (root : List String) (path : List String)
    (ff : Bool) (fuel : Nat) : Except RErr (List String) :=
  delegateStep fs fuel root path ff

/-- Modelled from the spec: the path-based rename flow resolves both of
its paths through the same sandboxed resolution (symlinks at the final
component are not followed); the model returns the two resolved
locations. -/
def sandboxRename (fs : Node) (root : List String) (old dest : List String)
    (fuel : Nat) : Except RErr (List String × List String) :=
  match (sandboxResolve fs root old false fuel).fst with
  | .error e => .error e
  | .ok a =>
    match (sandboxResolve fs root dest false fuel).fst with
    | .error e => .error e
    | .ok b => .ok (a, b)

/-- Opened locations of an event trace, as a multiset. -/
def opensOf (tr : List Ev) : Multiset (List String) :=
  ↑(tr.filterMap fun e => match e with | .openH p => some p | .closeH _ => none)

/-- Closed locations of an event trace, as a multiset. -/
def closesOf (tr : List Ev) : Multiset (List String) :=
  ↑(tr.filterMap fun e => match e with | .openH _ => none | .closeH p => some p)

/-- A concrete backing tree used for witnesses: the sandbox root is
`["safe"]`; `lnIn` stays inside the root, `lnOut` ascends above it with
`".."`, `lnChain` escapes only through its second hop, `lnAbs` is an
absolute symlink. -/
def demoFS : Node :=
  .dir
    [("safe", .dir
        [("a", .dir [("data", .file)]),
         ("lnIn", .symlink false ["a"]),
         ("lnChain", .symlink false ["lnOut"]),
         ("lnOut", .symlink false ["..", "secret"]),
         ("lnAbs", .symlink true ["etc"])]),
     ("secret", .file),
     ("etc", .dir [])]

/-! ## Shared concrete values for witnesses -/

/-- An all-zero Metadata value. -/
def mdZero : Metadata :=
  ⟨⟨0⟩, 0, 0, 0, "", 0, 0, 0, 0, 0⟩

/-- A Metadata value distinguishable from `mdZero`. -/
def md42 : Metadata :=
  { mdZero with Size := 42 }

/-! ## Theorems about Mode -/

/-- C4: for every 16-bit value `v`, including values with bits above
`0o777` set, constructing a Mode from `v` and reading it back yields
exactly the low 9 bits: `NewModeFromBits(v).Raw() == v & 0o777`; the
constructor never fails (it is a total function). -/
theorem mode_from_bits_raw : ∀ v : Nat, v < 2 ^ 16 →
    (NewModeFromBits v).Raw = v &&& 0o777 ∧
    (NewModeFromBits v).Raw = v % 2 ^ 9 ∧
    (NewModeFromBits v).Raw < 2 ^ 9 := by
  intro v _
  have hmask : (0o777 : Nat) = 2 ^ 9 - 1 := by norm_num
  have hmod : v &&& 0o777 = v % 2 ^ 9 := by
    rw [hmask]; exact Nat.and_pow_two_sub_one_eq_mod v 9
  refine ⟨rfl, hmod, ?_⟩
  show v &&& 0o777 < 2 ^ 9
  rw [hmod]
  exact Nat.mod_lt _ (by norm_num)

theorem mode_from_bits_raw_witness :
    0o173456 < 2 ^ 16 ∧
    ((NewModeFromBits 0o173456).Raw = 0o173456 &&& 0o777 ∧
     (NewModeFromBits 0o173456).Raw = 0o173456 % 2 ^ 9 ∧
     (NewModeFromBits 0o173456).Raw < 2 ^ 9) :=
  ⟨by norm_num, mode_from_bits_raw 0o173456 (by norm_num)⟩

/-- C5: for every 9-bit value `v`, the Mode built from `v` renders as a
string of exactly 9 characters where position `i` is the fixed table's
permission letter exactly when bit `8 - i` of `v` is set and `'-'`
otherwise; in particular `0o755` renders as `"rwxr-xr-x"` and `0` as
`"---------"`.  The rendering is a total function (purity is inherent
in the embedding). -/
theorem mode_render_spec : ∀ v : Nat, v < 2 ^ 9 →
    (NewModeFromBits v).render.length = 9 ∧
    (∀ i, i < 9 → (NewModeFromBits v).render.data.getD i ' ' =
        (if Nat.testBit v (8 - i) then rwxTable.getD i ' ' else '-')) ∧
    (NewModeFromBits 0o755).render = "rwxr-xr-x" ∧
    (NewModeFromBits 0).render = "---------" := by
  set_option maxRecDepth 100000 in decide

theorem mode_render_spec_witness :
    0o755 < 2 ^ 9 ∧
    ((NewModeFromBits 0o755).render.length = 9 ∧
     (∀ i, i < 9 → (NewModeFromBits 0o755).render.data.getD i ' ' =
        (if Nat.testBit 0o755 (8 - i) then rwxTable.getD i ' ' else '-')) ∧
     (NewModeFromBits 0o755).render = "rwxr-xr-x" ∧
     (NewModeFromBits 0).render = "---------") :=
  ⟨by norm_num, mode_render_spec 0o755 (by norm_num)⟩

/-! ## Theorems about Kind -/

/-- C10: the String method of Kind is injective over the seven variants;
each Kind renders as its distinct one-character string, so the Kind of an
entry can be recovered from its rendered string. -/
theorem kind_render_injective :
    (∀ k₁ k₂ : Kind, k₁.render = k₂.render → k₁ = k₂) ∧
    Kind.render .file = "f" ∧ Kind.render .dir = "d" ∧
    Kind.render .symlink = "l" ∧ Kind.render .fifo = "p" ∧
    Kind.render .socket = "s" ∧ Kind.render .blockDevice = "b" ∧
    Kind.render .charDevice = "c" := by
  refine ⟨?_, rfl, rfl, rfl, rfl, rfl, rfl, rfl⟩
  intro k₁ k₂
  cases k₁ <;> cases k₂ <;> decide

theorem kind_render_injective_witness : Kind.fifo = Kind.fifo :=
  kind_render_injective.1 .fifo .fifo rfl

/-! ## Theorems about Handle specialization -/

/-- C6: specializing a Handle whose Kind is not Directory via `Dir()`
fails with a descriptive kind-mismatch error and never returns a usable
Dir value; likewise for `File()` when the Kind is not RegularFile. -/
theorem handle_specialize_mismatch : ∀ h : Handle,
    (h.kind ≠ Kind.dir →
      h.toDir = .error ⟨"file", .kindMismatch (Kind.render .dir) h.kind.render⟩ ∧
      ∀ d : Dir, h.toDir ≠ .ok d) ∧
    (h.kind ≠ Kind.file →
      h.toFile = .error ⟨"file", .kindMismatch (Kind.render .file) h.kind.render⟩ ∧
      ∀ f : File, h.toFile ≠ .ok f) := by
  intro h
  constructor
  · intro hk
    refine ⟨by simp [Handle.toDir, hk], ?_⟩
    intro d heq
    simp [Handle.toDir, hk] at heq
  · intro hk
    refine ⟨by simp [Handle.toFile, hk], ?_⟩
    intro f heq
    simp [Handle.toFile, hk] at heq

theorem handle_specialize_mismatch_witness :
    Handle.toDir ⟨Kind.file, mdZero⟩ =
      .error ⟨"file", .kindMismatch (Kind.render .dir) (Kind.render .file)⟩ ∧
    Handle.toFile ⟨Kind.dir, mdZero⟩ =
      .error ⟨"file", .kindMismatch (Kind.render .file) (Kind.render .dir)⟩ :=
  ⟨((handle_specialize_mismatch ⟨Kind.file, mdZero⟩).1 (by decide)).1,
   ((handle_specialize_mismatch ⟨Kind.dir, mdZero⟩).2 (by decide)).1⟩

/-! ## Theorems about Cabinet -/

/-- C7: for every Cabinet, the open-root operation either returns a
Directory Handle or fails with the backend-reported error value; it
never panics on a backend-level failure (the operation is a total
function of the Cabinet). -/
theorem cabinet_open_root_total : ∀ c : Cabinet,
    (∃ h, c.OpenRoot = .ok h ∧ h.kind = Kind.dir) ∨
    (∃ e, c.OpenRoot = .error e ∧ c.backendErr = some e) := by
  intro c
  cases hc : c.backendErr with
  | some e => exact Or.inr ⟨e, by simp [Cabinet.OpenRoot, hc], rfl⟩
  | none => exact Or.inl ⟨⟨Kind.dir, c.rootMd⟩, by simp [Cabinet.OpenRoot, hc], rfl⟩

/-! ## Theorems about ReadMetadata -/

/-- C9: calling ReadMetadata with a non-nil pointer fills the pointed-to
cell in place and returns the very same pointer without allocating (the
heap does not grow); calling it with nil returns a pointer to a newly
allocated cell holding the metadata; in both cases the returned pointer
is non-nil. -/
theorem read_metadata_contract :
    ∀ (h : Handle) (arg : Option Nat) (heap : MetaHeap),
    (h.ReadMetadata arg heap).fst ≠ none ∧
    (∀ p, arg = some p →
      (h.ReadMetadata arg heap).fst = some p ∧
      (h.ReadMetadata arg heap).snd.cells.length = heap.cells.length ∧
      (p < heap.cells.length →
        (h.ReadMetadata arg heap).snd.cells.getD p mdZero = h.md)) ∧
    (arg = none →
      (h.ReadMetadata arg heap).fst = some heap.cells.length ∧
      (h.ReadMetadata arg heap).snd.cells.length = heap.cells.length + 1 ∧
      (h.ReadMetadata arg heap).snd.cells.getD heap.cells.length mdZero = h.md) := by
  intro h arg heap
  cases arg with
  | some p =>
    refine ⟨by simp [Handle.ReadMetadata], ?_, by simp⟩
    intro q hq
    obtain rfl : p = q := by simpa using hq
    refine ⟨rfl, by simp [Handle.ReadMetadata], ?_⟩
    intro hlt
    show ((heap.cells.set p h.md).getD p mdZero) = h.md
    rw [List.getD_eq_getElem?_getD, List.getElem?_set_self (by simpa using hlt)]
    simp
  | none =>
    refine ⟨by simp [Handle.ReadMetadata], by simp, fun _ => ⟨rfl, by simp [Handle.ReadMetadata], ?_⟩⟩
    show ((heap.cells ++ [h.md]).getD heap.cells.length mdZero) = h.md
    rw [List.getD_eq_getElem?_getD, List.getElem?_append_right (Nat.le_refl _)]
    simp

theorem read_metadata_contract_witness :
    (Handle.ReadMetadata ⟨Kind.file, md42⟩ (some 1) ⟨[mdZero, mdZero]⟩).fst = some 1 ∧
    (Handle.ReadMetadata ⟨Kind.file, md42⟩ (some 1) ⟨[mdZero, mdZero]⟩).snd.cells.length = 2 ∧
    (Handle.ReadMetadata ⟨Kind.file, md42⟩ none ⟨[mdZero, mdZero]⟩).fst = some 2 :=
  ⟨((read_metadata_contract ⟨Kind.file, md42⟩ (some 1) ⟨[mdZero, mdZero]⟩).2.1 1 rfl).1,
   ((read_metadata_contract ⟨Kind.file, md42⟩ (some 1) ⟨[mdZero, mdZero]⟩).2.1 1 rfl).2.1,
   ((read_metadata_contract ⟨Kind.file, md42⟩ none ⟨[mdZero, mdZero]⟩).2.2 rfl).1⟩

/-! ## Theorems about error rendering -/

/-- Helper: `takeWhile` up to the first blank recovers a blank-free
front segment. -/
theorem takeWhile_until_blank (l₂ : List Char) :
    ∀ l₁ : List Char, (∀ c ∈ l₁, c ≠ ' ') →
      (l₁ ++ ' ' :: l₂).takeWhile (fun c => c != ' ') = l₁ := by
  intro l₁
  induction l₁ with
  | nil => intro _; simp [List.takeWhile_cons]
  | cons a l ih =>
    intro h
    have ha : a ≠ ' ' := h a (List.mem_cons_self a l)
    have hl : ∀ c ∈ l, c ≠ ' ' := fun c hc => h c (List.mem_cons_of_mem a hc)
    simp only [List.cons_append, List.takeWhile_cons]
    simp [ha, ih hl]

/-- C8: every rendered error identifies its reporting layer (the `who`
field is recoverable as everything before the first blank of the
`"who reports: ..."` output, so differently-tagged layers render
differently); a Breakout error's rendering carries the offending path
prefix; and magic platform error codes render as symbolic name plus raw
numeric code when known, and in the explicit `UNKNOWN/num` form
otherwise. -/
theorem error_reporting_format :
    (∀ e : Err, (∀ c ∈ e.who.data, c ≠ ' ') →
        (renderErr e).takeWhile (fun c => c != ' ') = e.who.data) ∧
    (∀ who pre, ∃ a b, renderErr ⟨who, .breakout pre⟩ = a ++ (pathRender pre ++ b)) ∧
    (∀ name num, renderCode (.known name num) = name ++ '/' :: (Nat.repr num).data) ∧
    (∀ num, renderCode (.unknown num) = "UNKNOWN".data ++ '/' :: (Nat.repr num).data) := by
  refine ⟨?_, ?_, fun _ _ => rfl, fun _ => rfl⟩
  · intro e h
    have hsep : (" reports: ".data) = ' ' :: "reports: ".data := by decide
    have hsplit : renderErr e =
        e.who.data ++ (' ' :: ("reports: ".data ++ renderDetail e.detail)) := by
      rw [renderErr, hsep]
      simp [List.cons_append]
    rw [hsplit]
    exact takeWhile_until_blank _ _ h
  · intro who pre
    exact ⟨who.data ++ " reports: ".data ++ "breakout at ".data, [],
      by simp [renderErr, renderDetail]⟩

theorem error_reporting_format_witness :
    (renderErr ⟨"sandbox", .permissionDenied⟩).takeWhile (fun c => c != ' ') =
      "sandbox".data :=
  error_reporting_format.1 ⟨"sandbox", .permissionDenied⟩ (by decide)

/-! ## Sandbox lemmas -/

@[simp]
theorem opensOf_nil : opensOf [] = 0 := rfl

@[simp]
theorem opensOf_cons_openH (q : List String) (tr : List Ev) :
    opensOf (Ev.openH q :: tr) = q ::ₘ opensOf tr := by
  simp [opensOf, List.filterMap_cons]

@[simp]
theorem opensOf_cons_closeH (q : List String) (tr : List Ev) :
    opensOf (Ev.closeH q :: tr) = opensOf tr := by
  simp [opensOf, List.filterMap_cons]

@[simp]
theorem closesOf_nil : closesOf [] = 0 := rfl

@[simp]
theorem closesOf_cons_openH (q : List String) (tr : List Ev) :
    closesOf (Ev.openH q :: tr) = closesOf tr := by
  simp [closesOf, List.filterMap_cons]

@[simp]
theorem closesOf_cons_closeH (q : List String) (tr : List Ev) :
    closesOf (Ev.closeH q :: tr) = q ::ₘ closesOf tr := by
  simp [closesOf, List.filterMap_cons]

/-- Swapping a cons with a singleton. -/
theorem cons_singleton_swap (a b : List String) :
    a ::ₘ ({b} : Multiset (List String)) = b ::ₘ {a} := by
  rw [← Multiset.cons_zero b, Multiset.cons_swap, Multiset.cons_zero]

/-- Ascending from a location strictly below the root stays at or below
the root. -/
theorem root_le_dropLast {root cur : List String} (h : root <+: cur)
    (hne : cur ≠ root) : root <+: cur.dropLast := by
  obtain ⟨t, rfl⟩ := h
  have ht : t ≠ [] := by rintro rfl; simp at hne
  rw [List.dropLast_append_of_ne_nil _ ht]
  exact ⟨t.dropLast, rfl⟩

/-- Invariant of the resolution loop: starting below the root, a
successful resolution ends below the root. -/
theorem sandboxStep_ok_in_root (fs : Node) (root : List String) (ff : Bool) :
    ∀ (fuel : Nat) (cur rem p : List String), root <+: cur →
      (sandboxStep fs root fuel cur rem ff).fst = .ok p → root <+: p := by
  intro fuel
  induction fuel with
  | zero =>
    intro cur rem p _ h
    simp [sandboxStep] at h
  | succ fuel ih =>
    intro cur rem p hpre h
    cases rem with
    | nil =>
      simp only [sandboxStep, Except.ok.injEq] at h
      exact h ▸ hpre
    | cons c rest =>
      simp only [sandboxStep] at h
      by_cases hc : c = ".."
      · rw [if_pos hc] at h
        by_cases hr : cur = root
        · rw [if_pos hr] at h
          simp at h
        · rw [if_neg hr] at h
          exact ih cur.dropLast rest p (root_le_dropLast hpre hr) h
      · rw [if_neg hc] at h
        cases hn : nodeAt fs (cur ++ [c]) with
        | none => simp [hn] at h
        | some nd =>
          cases nd with
          | file =>
            simp only [hn] at h
            cases rest with
            | nil =>
              simp only [Except.ok.injEq] at h
              exact h ▸ hpre.trans ⟨[c], rfl⟩
            | cons d rest2 => simp at h
          | dir es =>
            simp only [hn] at h
            exact ih (cur ++ [c]) rest p (hpre.trans ⟨[c], rfl⟩) h
          | symlink abs target =>
            simp only [hn] at h
            by_cases hfin : rest = [] ∧ ff = false
            · rw [if_pos hfin] at h
              simp only [Except.ok.injEq] at h
              exact h ▸ hpre.trans ⟨[c], rfl⟩
            · rw [if_neg hfin] at h
              by_cases habs : abs = true
              · simp [habs] at h
              · simp only [habs, if_neg] at h
                simp only [Bool.not_eq_true] at habs
                simp only [habs, Bool.false_eq_true, if_false] at h
                exact ih cur (target ++ rest) p hpre h

/-- Within one resolution attempt, handles balance: the handle held at
entry plus every handle opened equals, on success, the returned handle
plus every handle closed — and on error, exactly the handles closed. -/
theorem sandboxStep_handles_balanced (fs : Node) (root : List String) (ff : Bool) :
    ∀ (fuel : Nat) (cur rem : List String),
      (∀ p, (sandboxStep fs root fuel cur rem ff).fst = .ok p →
        cur ::ₘ opensOf (sandboxStep fs root fuel cur rem ff).snd =
          p ::ₘ closesOf (sandboxStep fs root fuel cur rem ff).snd) ∧
      (∀ e, (sandboxStep fs root fuel cur rem ff).fst = .error e →
        cur ::ₘ opensOf (sandboxStep fs root fuel cur rem ff).snd =
          closesOf (sandboxStep fs root fuel cur rem ff).snd) := by
  intro fuel
  induction fuel with
  | zero =>
    intro cur rem
    constructor
    · intro p h; simp [sandboxStep] at h
    · intro e h; simp [sandboxStep]
  | succ fuel ih =>
    intro cur rem
    cases rem with
    | nil =>
      constructor
      · intro p h
        simp only [sandboxStep, Except.ok.injEq] at h
        simp [sandboxStep, h]
      · intro e h
        simp [sandboxStep] at h
    | cons c rest =>
      by_cases hc : c = ".."
      · by_cases hr : cur = root
        · constructor
          · intro p h
            simp [sandboxStep, hc, hr] at h
          · intro e h
            simp [sandboxStep, hc, hr]
        · have hrec := ih cur.dropLast rest
          constructor
          · intro p h
            simp only [sandboxStep, if_pos hc, if_neg hr] at h ⊢
            rw [opensOf_cons_openH, closesOf_cons_openH, opensOf_cons_closeH,
              closesOf_cons_closeH]
            rw [hrec.1 p h, Multiset.cons_swap]
          · intro e h
            simp only [sandboxStep, if_pos hc, if_neg hr] at h ⊢
            rw [opensOf_cons_openH, closesOf_cons_openH, opensOf_cons_closeH,
              closesOf_cons_closeH]
            rw [hrec.2 e h]
      · cases hn : nodeAt fs (cur ++ [c]) with
        | none =>
          constructor
          · intro p h
            simp [sandboxStep, hc, hn] at h
          · intro e h
            simp [sandboxStep, hc, hn]
        | some nd =>
          cases nd with
          | file =>
            cases rest with
            | nil =>
              constructor
              · intro p h
                simp only [sandboxStep, if_neg hc, hn, Except.ok.injEq] at h
                simp only [sandboxStep, if_neg hc, hn]
                rw [opensOf_cons_openH, closesOf_cons_openH, opensOf_cons_closeH,
                  closesOf_cons_closeH, ← h]
                exact cons_singleton_swap _ _
              · intro e h
                simp [sandboxStep, hc, hn] at h
            | cons d rest2 =>
              constructor
              · intro p h
                simp [sandboxStep, hc, hn] at h
              · intro e h
                simp only [sandboxStep, if_neg hc, hn]
                rw [opensOf_cons_openH, closesOf_cons_openH, opensOf_cons_closeH,
                  closesOf_cons_closeH, opensOf_cons_closeH, closesOf_cons_closeH]
                exact cons_singleton_swap _ _
          | dir es =>
            have hrec := ih (cur ++ [c]) rest
            constructor
            · intro p h
              simp only [sandboxStep, if_neg hc, hn] at h ⊢
              rw [opensOf_cons_openH, closesOf_cons_openH, opensOf_cons_closeH,
                closesOf_cons_closeH]
              rw [hrec.1 p h, Multiset.cons_swap]
            · intro e h
              simp only [sandboxStep, if_neg hc, hn] at h ⊢
              rw [opensOf_cons_openH, closesOf_cons_openH, opensOf_cons_closeH,
                closesOf_cons_closeH]
              rw [hrec.2 e h]
          | symlink abs target =>
            by_cases hfin : rest = [] ∧ ff = false
            · constructor
              · intro p h
                simp only [sandboxStep, if_neg hc, hn, if_pos hfin,
                  Except.ok.injEq] at h
                simp only [sandboxStep, if_neg hc, hn, if_pos hfin]
                rw [opensOf_cons_openH, closesOf_cons_openH, opensOf_cons_closeH,
                  closesOf_cons_closeH, ← h]
                exact cons_singleton_swap _ _
              · intro e h
                simp [sandboxStep, hc, hn, hfin] at h
            · by_cases habs : abs = true
              · constructor
                · intro p h
                  simp [sandboxStep, hc, hn, hfin, habs] at h
                · intro e h
                  simp only [sandboxStep, if_neg hc, hn, if_neg hfin, habs,
                    if_true]
                  rw [opensOf_cons_openH, closesOf_cons_openH, opensOf_cons_closeH,
                    closesOf_cons_closeH, opensOf_cons_closeH, closesOf_cons_closeH]
                  exact cons_singleton_swap _ _
              · have habs' : abs = false := by
                  cases abs
                  · rfl
                  · exact absurd rfl habs
                have hrec := ih cur (target ++ rest)
                constructor
                · intro p h
                  simp only [sandboxStep, if_neg hc, hn, if_neg hfin, habs',
                    Bool.false_eq_true, if_false] at h ⊢
                  rw [opensOf_cons_openH, closesOf_cons_openH, opensOf_cons_closeH,
                    closesOf_cons_closeH]
                  rw [Multiset.cons_swap, hrec.1 p h, Multiset.cons_swap]
                · intro e h
                  simp only [sandboxStep, if_neg hc, hn, if_neg hfin, habs',
                    Bool.false_eq_true, if_false] at h ⊢
                  rw [opensOf_cons_openH, closesOf_cons_openH, opensOf_cons_closeH,
                    closesOf_cons_closeH]
                  rw [Multiset.cons_swap, hrec.2 e h]

/-- Failing resolutions halt immediately: components appended after the
failure point change neither the error nor the handle events of the
attempt (in particular no appended component is ever opened). -/
theorem sandboxStep_error_stable (fs : Node) (root : List String) (ff : Bool) :
    ∀ (fuel : Nat) (cur rem : List String) (e : RErr),
      (sandboxStep fs root fuel cur rem ff).fst = .error e →
      ∀ extra, sandboxStep fs root fuel cur (rem ++ extra) ff =
        sandboxStep fs root fuel cur rem ff := by
  intro fuel
  induction fuel with
  | zero =>
    intro cur rem e _ extra
    simp [sandboxStep]
  | succ fuel ih =>
    intro cur rem e h extra
    cases rem with
    | nil => simp [sandboxStep] at h
    | cons c rest =>
      simp only [List.cons_append]
      by_cases hc : c = ".."
      · by_cases hr : cur = root
        · simp [sandboxStep, hc, hr]
        · simp only [sandboxStep, if_pos hc, if_neg hr] at h ⊢
          rw [ih cur.dropLast rest e h extra]
      · cases hn : nodeAt fs (cur ++ [c]) with
        | none => simp [sandboxStep, hc, hn]
        | some nd =>
          cases nd with
          | file =>
            cases rest with
            | nil => simp [sandboxStep, hc, hn] at h
            | cons d rest2 => simp [sandboxStep, hc, hn]
          | dir es =>
            simp only [sandboxStep, if_neg hc, hn] at h ⊢
            rw [ih (cur ++ [c]) rest e h extra]
          | symlink abs target =>
            by_cases hfin : rest = [] ∧ ff = false
            · simp [sandboxStep, hc, hn, hfin] at h
            · have hfin' : ¬(rest ++ extra = [] ∧ ff = false) := by
                intro hcon
                rcases hcon with ⟨hnil, hff⟩
                rcases List.append_eq_nil.mp hnil with ⟨hr1, _⟩
                exact hfin ⟨hr1, hff⟩
              by_cases habs : abs = true
              · simp only [sandboxStep, if_neg hc, hn, if_neg hfin, if_neg hfin',
                  habs, if_true]
              · have habs' : abs = false := by
                  cases abs
                  · rfl
                  · exact absurd rfl habs
                simp only [sandboxStep, if_neg hc, hn, if_neg hfin, if_neg hfin',
                  habs', Bool.false_eq_true, if_false] at h ⊢
                rw [← List.append_assoc, ih cur (target ++ rest) e h extra]

/-- Dichotomy: at every step the sandboxed resolution either behaves
exactly as the un-sandboxed delegate or fails with a breakout error — it
diverges from the delegate in no other way. -/
theorem sandboxStep_delegate_dichotomy (fs : Node) (root : List String) (ff : Bool) :
    ∀ (fuel : Nat) (cur rem : List String), root <+: cur →
      (sandboxStep fs root fuel cur rem ff).fst = delegateStep fs fuel cur rem ff ∨
      ∃ pre, (sandboxStep fs root fuel cur rem ff).fst = .error (.breakout pre) := by
  intro fuel
  induction fuel with
  | zero =>
    intro cur rem _
    left
    simp [sandboxStep, delegateStep]
  | succ fuel ih =>
    intro cur rem hpre
    cases rem with
    | nil =>
      left
      simp [sandboxStep, delegateStep]
    | cons c rest =>
      by_cases hc : c = ".."
      · by_cases hr : cur = root
        · right
          exact ⟨cur ++ [c], by simp [sandboxStep, hc, hr]⟩
        · have := ih cur.dropLast rest (root_le_dropLast hpre hr)
          cases this with
          | inl heq =>
            left
            simp only [sandboxStep, delegateStep, if_pos hc, if_neg hr]
            exact heq
          | inr hbk =>
            right
            rcases hbk with ⟨pre, hpre2⟩
            refine ⟨pre, ?_⟩
            simp only [sandboxStep, if_pos hc, if_neg hr]
            exact hpre2
      · cases hn : nodeAt fs (cur ++ [c]) with
        | none =>
          left
          simp [sandboxStep, delegateStep, hc, hn]
        | some nd =>
          cases nd with
          | file =>
            left
            cases rest with
            | nil => simp [sandboxStep, delegateStep, hc, hn]
            | cons d rest2 => simp [sandboxStep, delegateStep, hc, hn]
          | dir es =>
            have := ih (cur ++ [c]) rest (hpre.trans ⟨[c], rfl⟩)
            cases this with
            | inl heq =>
              left
              simp only [sandboxStep, delegateStep, if_neg hc, hn]
              exact heq
            | inr hbk =>
              right
              rcases hbk with ⟨pre, hpre2⟩
              refine ⟨pre, ?_⟩
              simp only [sandboxStep, if_neg hc, hn]
              exact hpre2
          | symlink abs target =>
            by_cases hfin : rest = [] ∧ ff = false
            · left
              simp [sandboxStep, delegateStep, hc, hn, hfin]
            · by_cases habs : abs = true
              · right
                exact ⟨cur ++ [c], by simp [sandboxStep, hc, hn, hfin, habs]⟩
              · have habs' : abs = false := by
                  cases abs
                  · rfl
                  · exact absurd rfl habs
                have := ih cur (target ++ rest) hpre
                cases this with
                | inl heq =>
                  left
                  simp only [sandboxStep, delegateStep, if_neg hc, hn, if_neg hfin,
                    habs', Bool.false_eq_true, if_false]
                  exact heq
                | inr hbk =>
                  right
                  rcases hbk with ⟨pre, hpre2⟩
                  refine ⟨pre, ?_⟩
                  simp only [sandboxStep, if_neg hc, hn, if_neg hfin, habs',
                    Bool.false_eq_true, if_false]
                  exact hpre2

theorem sandboxResolve_fst (fs : Node) (root path : List String) (ff : Bool)
    (fuel : Nat) :
    (sandboxResolve fs root path ff fuel).fst =
      (sandboxStep fs root fuel root path ff).fst := rfl

theorem sandboxResolve_snd (fs : Node) (root path : List String) (ff : Bool)
    (fuel : Nat) :
    (sandboxResolve fs root path ff fuel).snd =
      Ev.openH root :: (sandboxStep fs root fuel root path ff).snd := rfl

theorem delegateResolve_eq (fs : Node) (root path : List String) (ff : Bool)
    (fuel : Nat) :
    delegateResolve fs root path ff fuel = delegateStep fs fuel root path ff := rfl

/-! ## Sandbox theorems -/

/-- C1: every path resolved through the sandbox decorator — by
child-by-child traversal or by the path-based rename flow — reaches an
entry inside the sandbox's fixed root: whenever resolution returns a
location, the root is a prefix of it, no matter what chains of symbolic
links the path passed through (escape attempts fail with a breakout
error instead of returning a location). -/
theorem sandbox_stays_within_root (fs : Node) (root : List String) (fuel : Nat) :
    (∀ path ff p, (sandboxResolve fs root path ff fuel).fst = .ok p →
      root <+: p) ∧
    (∀ old dest a b, sandboxRename fs root old dest fuel = .ok (a, b) →
      root <+: a ∧ root <+: b) := by
  have hres : ∀ path ff p,
      (sandboxResolve fs root path ff fuel).fst = .ok p → root <+: p := by
    intro path ff p h
    rw [sandboxResolve_fst] at h
    exact sandboxStep_ok_in_root fs root ff fuel root path p List.prefix_rfl h
  refine ⟨hres, ?_⟩
  intro old dest a b h
  unfold sandboxRename at h
  cases h1 : (sandboxResolve fs root old false fuel).fst with
  | error e => rw [h1] at h; simp at h
  | ok x =>
    rw [h1] at h
    cases h2 : (sandboxResolve fs root dest false fuel).fst with
    | error e => rw [h2] at h; simp at h
    | ok y =>
      rw [h2] at h
      simp only [Except.ok.injEq, Prod.mk.injEq] at h
      obtain ⟨rfl, rfl⟩ := h
      exact ⟨hres old false _ h1, hres dest false _ h2⟩

theorem sandbox_stays_within_root_witness :
    (["safe"] <+: ["safe", "a", "data"]) ∧
    ((["safe"] <+: ["safe", "a", "data"]) ∧ (["safe"] <+: ["safe", "a", "data"])) :=
  ⟨(sandbox_stays_within_root demoFS ["safe"] 99).1 ["lnIn", "data"] false
      ["safe", "a", "data"] rfl,
   (sandbox_stays_within_root demoFS ["safe"] 99).2 ["a", "data"] ["lnIn", "data"]
      ["safe", "a", "data"] ["safe", "a", "data"] rfl⟩

/-- C2: when the sandbox's resolution detects an escape it fails
immediately with a breakout error: every handle opened during the
attempt has been closed when the error is returned (the multiset of
opened locations equals the multiset of closed ones — no partial handle
is leaked), and components past the failure point are never examined —
appending further components changes neither the error nor the handle
events of the attempt. -/
theorem sandbox_breakout_no_leak (fs : Node) (root path : List String) (ff : Bool)
    (fuel : Nat) (pre : List String)
    (h : (sandboxResolve fs root path ff fuel).fst = .error (.breakout pre)) :
    opensOf (sandboxResolve fs root path ff fuel).snd =
      closesOf (sandboxResolve fs root path ff fuel).snd ∧
    ∀ extra, sandboxResolve fs root (path ++ extra) ff fuel =
      sandboxResolve fs root path ff fuel := by
  rw [sandboxResolve_fst] at h
  constructor
  · have hb := (sandboxStep_handles_balanced fs root ff fuel root path).2 _ h
    rw [sandboxResolve_snd, opensOf_cons_openH, closesOf_cons_openH]
    exact hb
  · intro extra
    simp only [sandboxResolve]
    rw [sandboxStep_error_stable fs root ff fuel root path _ h extra]

theorem sandbox_breakout_no_leak_witness :
    opensOf (sandboxResolve demoFS ["safe"] ["lnChain", "x"] false 99).snd =
      closesOf (sandboxResolve demoFS ["safe"] ["lnChain", "x"] false 99).snd ∧
    sandboxResolve demoFS ["safe"] (["lnChain", "x"] ++ ["zz"]) false 99 =
      sandboxResolve demoFS ["safe"] ["lnChain", "x"] false 99 :=
  ⟨(sandbox_breakout_no_leak demoFS ["safe"] ["lnChain", "x"] false 99
      ["safe", ".."] rfl).1,
   (sandbox_breakout_no_leak demoFS ["safe"] ["lnChain", "x"] false 99
      ["safe", ".."] rfl).2 ["zz"]⟩

/-- C3: the sandbox decorator is transparent except for the added
breakout error kind: whenever it returns a handle, that handle refers to
the same entry the unwrapped delegate Cabinet reaches for the same path;
and whenever the delegate succeeds and the sandboxed resolution raises
no breakout (i.e. no symlink hop leaves the root — in particular for
symlink-free paths and for relative symlink targets that stay inside the
root), the sandbox succeeds with that very entry. -/
theorem sandbox_transparent (fs : Node) (root path : List String) (ff : Bool)
    (fuel : Nat) :
    (∀ p, (sandboxResolve fs root path ff fuel).fst = .ok p →
      delegateResolve fs root path ff fuel = .ok p) ∧
    (∀ p, delegateResolve fs root path ff fuel = .ok p →
      (∀ pre, (sandboxResolve fs root path ff fuel).fst ≠ .error (.breakout pre)) →
      (sandboxResolve fs root path ff fuel).fst = .ok p) := by
  have hd := sandboxStep_delegate_dichotomy fs root ff fuel root path List.prefix_rfl
  constructor
  · intro p h
    rw [sandboxResolve_fst] at h
    cases hd with
    | inl heq =>
      rw [delegateResolve_eq, ← heq]
      exact h
    | inr hbk =>
      rcases hbk with ⟨pre, hb⟩
      rw [h] at hb
      simp at hb
  · intro p h hnb
    cases hd with
    | inl heq =>
      rw [sandboxResolve_fst, heq, ← delegateResolve_eq]
      exact h
    | inr hbk =>
      rcases hbk with ⟨pre, hb⟩
      rw [← sandboxResolve_fst] at hb
      exact absurd hb (hnb pre)

theorem sandbox_transparent_witness :
    (sandboxResolve demoFS ["safe"] ["lnIn", "data"] false 99).fst =
      Except.ok ["safe", "a", "data"] := by
  have hok : delegateResolve demoFS ["safe"] ["lnIn", "data"] false 99 =
      Except.ok ["safe", "a", "data"] := rfl
  refine (sandbox_transparent demoFS ["safe"] ["lnIn", "data"] false 99).2
    ["safe", "a", "data"] hok ?_
  intro pre hb
  have hfst : (sandboxResolve demoFS ["safe"] ["lnIn", "data"] false 99).fst =
      Except.ok ["safe", "a", "data"] := rfl
  rw [hfst] at hb
  exact Except.noConfusion hb

end GoFile
